import Mathlib

/-!
Record store and auth gate of the user service.

A shallow embedding of `services/services.go` (the cached, file-backed user
store) and of the request handler returned by `CognitoMiddleware` in
`middlewares/cognito.go`.

Modelling conventions

* A Go slice of users is a `List User`. The code only ever takes `len`, indexes,
  appends and re-slices `usersCache`, so a nil slice and an empty slice are the
  same value here (both have length 0).
* Go `int` is `Int`; the only arithmetic is `id+1` with `id < len`, which cannot
  overflow.
* Every exported store function runs under `cacheMutex` from entry to return, so
  each one is a single atomic transition of the store.
* The backing file is described by what `json.Decoder.Decode` makes of it; the
  outcome of `os.Create` and `Encoder.Encode` is chosen by the environment and
  given to the mutating operations as an argument.
* Every call of `os.Open` and of `writeUsersToFile` is appended to a trace, so
  that "does not touch the file" is a statement about the resulting store.
* In the auth gate a Go string is a `String`; `strings.HasPrefix` and
  `strings.TrimPrefix` work on bytes, which for the ASCII prefix used here is
  the same as working on characters.
* In the record store a Go string is a `GoString`: the sequence of steps
  `utf8.DecodeRuneInString` takes along its bytes, each one a well-formed
  character or a single byte that begins no well-formed encoding. The store
  never inspects, cuts or joins strings; only `encoding/json` reads them, and
  it reads them in exactly these steps. `Encoder.Encode` writes every such byte
  as the replacement character U+FFFD and returns no error for it, so what
  `Decode` reads back from a written file is `jsonUser` of what was written.
  A sequence in which neighbouring invalid bytes would together form a
  well-formed encoding stands for no Go string; the theorems cover it as well.
* `jwt.Parse` with its key function is an argument of the handler; the handler
  records the token string it passes to it.
-/

deriving instance DecidableEq for Except

namespace Services

/-- One step of `utf8.DecodeRuneInString` along a Go string. -/
inductive Item where
  | rune (c : Char)       -- a well-formed character
  | invalid (byte : Nat)  -- a byte that begins no well-formed encoding (width 1)
  deriving DecidableEq, Repr

/-- A Go string: bytes that need not be valid UTF-8, read in decoding steps. -/
abbrev GoString := List Item

/-- A string literal, which is valid UTF-8, as a Go string. -/
instance : Coe String GoString := ⟨fun s => s.data.map Item.rune⟩

/-- The constant `utf8.RuneError`, U+FFFD. -/
def RuneError : Char := Char.ofNat 65533

/-- The function `utf8.ValidString`. -/
def ValidString : GoString → Bool
  | [] => true
  | .rune _ :: s => ValidString s
  | .invalid _ :: _ => false

/-- What `Decode` reads back for a string that `Encode` wrote: `encoding/json`
coerces the string to valid UTF-8, each invalid byte becoming U+FFFD. -/
def jsonString (s : GoString) : GoString :=
  s.map fun
    | .rune c => .rune c
    | .invalid _ => .rune RuneError

/-- The record of `types/user.go`. -/
structure User where
  Name : GoString
  Age : Int
  City : GoString
  deriving DecidableEq, Repr

/-- What `Decode` reads back for a record that `Encode` wrote. -/
def jsonUser (u : User) : User :=
  { Name := jsonString u.Name, Age := u.Age, City := jsonString u.City }

/-- Both strings of a record are valid UTF-8. -/
def validUser (u : User) : Bool := ValidString u.Name && ValidString u.City

/-- The Go `error` values the store can return. -/
inductive Err where
  | userNotFound   -- errors.New("user not found")
  | openFailed     -- error of os.Open
  | decodeFailed   -- error of decoder.Decode
  | createFailed   -- error of os.Create
  | encodeFailed   -- error of encoder.Encode
  deriving DecidableEq, Repr

/-- What a reader finds in `users.json`. In `holds users` the list is what
`Decode` returns; `Decode` itself coerces strings to valid UTF-8, so in a real
file the strings of `users` are valid. -/
inductive File where
  | unopenable                  -- os.Open returns an error
  | undecodable                 -- the file opens, Decode returns an error
  | holds (users : List User)   -- the file decodes to `users`
  deriving DecidableEq, Repr

/-- How the environment answers one call of `writeUsersToFile`. -/
inductive WriteOutcome where
  | ok            -- os.Create and Encode both succeed
  | createFails   -- os.Create returns an error: the file is not touched
  | encodeFails   -- os.Create has truncated the file, Encode returns an error
  deriving DecidableEq, Repr

/-- The file operations a store function performs. -/
inductive Event where
  | opened                                          -- os.Open(filePath)
  | persist (users : List User) (o : WriteOutcome)  -- writeUsersToFile(users)
  deriving DecidableEq, Repr

/-- The package-level state: `usersCache`, the file `users.json`, and the file
operations performed so far (oldest first). -/
structure Store where
  usersCache : List User
  file : File
  trace : List Event
  deriving DecidableEq, Repr

/-- A process that has just started: `usersCache` is nil. -/
def fresh (f : File) : Store := { usersCache := [], file := f, trace := [] }

/-- The function `writeUsersToFile`: truncate and rewrite the whole file. After
a successful `Encode` the file decodes to the JSON rendering of `users`. -/
def writeUsersToFile (users : List User) (o : WriteOutcome) (s : Store) :
    Option Err × Store :=
  let t := s.trace ++ [Event.persist users o]
  match o with
  | .createFails => (some .createFailed, { s with trace := t })
  | .encodeFails => (some .encodeFailed, { s with file := .undecodable, trace := t })
  | .ok => (none, { s with file := .holds (users.map jsonUser), trace := t })

/-- The function `GetAllUsers`: read the file when `len(usersCache) == 0`. -/
def GetAllUsers (s : Store) : Except Err (List User) × Store :=
  if s.usersCache.length = 0 then
    let s1 := { s with trace := s.trace ++ [Event.opened] }
    match s.file with
    | .unopenable => (.error .openFailed, s1)
    | .undecodable => (.error .decodeFailed, s1)
    | .holds users => (.ok users, { s1 with usersCache := users })
  else
    (.ok s.usersCache, s)

/-- The function `InitializeCache`: load through `GetAllUsers`, then store the
result in `usersCache` once more. -/
def InitializeCache (s : Store) : Option Err × Store :=
  match GetAllUsers s with
  | (.error e, s1) => (some e, s1)
  | (.ok users, s1) => (none, { s1 with usersCache := users })

/-- The function `GetUserByID`. -/
def GetUserByID (id : Int) (s : Store) : Except Err User × Store :=
  if id < 0 ∨ id ≥ (s.usersCache.length : Int) then
    (.error .userNotFound, s)
  else
    match s.usersCache[id.toNat]? with
    | some u => (.ok u, s)
    | none => (.error .userNotFound, s)   -- not reached: the index is in range

/-- The function `CreateUser`: append, then persist the whole cache. -/
def CreateUser (user : User) (o : WriteOutcome) (s : Store) : Option Err × Store :=
  let s1 := { s with usersCache := s.usersCache ++ [user] }
  writeUsersToFile s1.usersCache o s1

/-- The function `UpdateUser`. -/
def UpdateUser (id : Int) (updatedUser : User) (o : WriteOutcome) (s : Store) :
    Option Err × Store :=
  if id < 0 ∨ id ≥ (s.usersCache.length : Int) then
    (some .userNotFound, s)
  else
    let s1 := { s with usersCache := s.usersCache.set id.toNat updatedUser }
    writeUsersToFile s1.usersCache o s1

/-- The function `DeleteUser`:
`usersCache = append(usersCache[:id], usersCache[id+1:]...)`. -/
def DeleteUser (id : Int) (o : WriteOutcome) (s : Store) : Option Err × Store :=
  if id < 0 ∨ id ≥ (s.usersCache.length : Int) then
    (some .userNotFound, s)
  else
    let s1 := { s with
      usersCache := s.usersCache.take id.toNat ++ s.usersCache.drop (id.toNat + 1) }
    writeUsersToFile s1.usersCache o s1

/-- One call into the store, with the environment's answer to its persist. -/
inductive Call where
  | getAll
  | getByID (id : Int)
  | create (user : User) (o : WriteOutcome)
  | update (id : Int) (user : User) (o : WriteOutcome)
  | delete (id : Int) (o : WriteOutcome)
  deriving DecidableEq, Repr

/-- The store after one call has returned. -/
def step (s : Store) : Call → Store
  | .getAll => (GetAllUsers s).2
  | .getByID id => (GetUserByID id s).2
  | .create user o => (CreateUser user o s).2
  | .update id user o => (UpdateUser id user o s).2
  | .delete id o => (DeleteUser id o s).2

/-- The store after a sequence of calls, each one returned before the next. -/
def run (s : Store) (calls : List Call) : Store := calls.foldl step s

/-- The store right after a first, successful `GetAllUsers` over a file that
decodes to `loaded`. -/
def loadedStore (loaded : List User) : Store := (GetAllUsers (fresh (.holds loaded))).2

/-- Whether a call is a `CreateUser`. -/
def Call.isCreate : Call → Bool
  | .create _ _ => true
  | _ => false

/-- The contents most recently written successfully according to a trace (the
records the file held once that write had returned), or `loaded` when the
trace has no successful write. -/
def lastWritten (loaded : List User) : List Event → List User
  | [] => loaded
  | .persist users .ok :: t => lastWritten (users.map jsonUser) t
  | _ :: t => lastWritten loaded t

/-- Whether the most recent persist of a trace failed (`failed` when the trace
has no persist). -/
def lastPersistFailed (failed : Bool) : List Event → Bool
  | [] => failed
  | .opened :: t => lastPersistFailed failed t
  | .persist _ .ok :: t => lastPersistFailed false t
  | .persist _ _ :: t => lastPersistFailed true t

/-- The invariant carried along a run: unless the most recent persist failed,
the file holds the contents last written and the cache has the same JSON
rendering as they have. -/
def Consistent (loaded : List User) (s : Store) : Prop :=
  lastPersistFailed false s.trace = false →
    s.file = .holds (lastWritten loaded s.trace) ∧
    s.usersCache.map jsonUser = (lastWritten loaded s.trace).map jsonUser

end Services

namespace Middlewares

/-- The configuration struct of `middlewares/cognito.go`. -/
structure CognitoMiddlewareConfig where
  Region : String
  UserPoolID : String
  AppClientID : String
  ResourceServerID : String
  deriving DecidableEq, Repr

/-- A value stored in `jwt.MapClaims` (a Go `interface{}` decoded from JSON).
The handler only asks whether a value is a string, and which one. -/
inductive ClaimValue where
  | str (s : String)
  | num (n : Int)
  | bool (b : Bool)
  | strs (xs : List String)
  | null
  deriving DecidableEq, Repr

/-- The type `jwt.MapClaims`: claim names with their values. -/
abbrev MapClaims := List (String × ClaimValue)

/-- The type assertion `claims[key].(string)`: the string and `ok`. -/
def stringClaim (claims : MapClaims) (key : String) : Option String :=
  match claims.lookup key with
  | some (.str s) => some s
  | _ => none

/-- What `jwt.Parse(tokenString, keyfunc)` hands back to the handler. -/
inductive Parsed where
  | rejected                            -- err != nil || !token.Valid
  | valid (claims : Option MapClaims)   -- token.Claims, `none` when not a MapClaims
  deriving DecidableEq, Repr

/-- The request as far as the handler reads it. -/
structure Request where
  Authorization : Option String
  deriving DecidableEq, Repr

/-- The call `c.Get("Authorization")`: the header, or "" when it is absent. -/
def Request.Get (c : Request) : String := c.Authorization.getD ""

/-- The constant `fiber.StatusUnauthorized`. -/
def StatusUnauthorized : Nat := 401

/-- How the handler ends. -/
inductive Reply where
  | json (status : Nat) (error : String)  -- c.Status(status).JSON(fiber.Map{"error": error})
  | next (claims : MapClaims)             -- c.Locals("claims", claims); c.Next()
  deriving DecidableEq, Repr

/-- The reply together with the argument of `jwt.Parse`, when it was called. -/
structure Outcome where
  parsed : Option String
  reply : Reply
  deriving DecidableEq, Repr

/-- The function `strings.HasPrefix`. -/
def HasPrefix (s pre : String) : Bool := pre.data.isPrefixOf s.data

/-- The function `strings.TrimPrefix`: `s[len(pre):]` when `s` starts with `pre`. -/
def TrimPrefix (s pre : String) : String :=
  if HasPrefix s pre then ⟨s.data.drop pre.data.length⟩ else s

/-- The value `expectedIssuer` built by `fmt.Sprintf`. -/
def expectedIssuer (config : CognitoMiddlewareConfig) : String :=
  "https://cognito-idp." ++ config.Region ++ ".amazonaws.com/" ++ config.UserPoolID

/-- The audience block of the handler: `some reply` when it returns early. -/
def validateAudience (config : CognitoMiddlewareConfig) (claims : MapClaims) : Option Reply :=
  if config.AppClientID ≠ "" ∨ config.ResourceServerID ≠ "" then
    match stringClaim claims "aud" with
    | some aud =>
      if aud ≠ config.AppClientID ∧ aud ≠ config.ResourceServerID then
        some (.json StatusUnauthorized "invalid audience")
      else
        none
    | none => some (.json StatusUnauthorized "aud claim missing")
  else
    none

/-- The issuer block of the handler: `some reply` when it returns early. -/
def validateIssuer (config : CognitoMiddlewareConfig) (claims : MapClaims) : Option Reply :=
  match stringClaim claims "iss" with
  | some iss =>
    if iss ≠ expectedIssuer config then some (.json StatusUnauthorized "invalid issuer")
    else none
  | none => some (.json StatusUnauthorized "invalid issuer")

/-- The handler from the claim checks on. -/
def validateClaims (config : CognitoMiddlewareConfig) (claims : MapClaims) : Reply :=
  match validateAudience config claims with
  | some r => r
  | none =>
    match validateIssuer config claims with
    | some r => r
    | none => .next claims

/-- The handler returned by `CognitoMiddleware(config)`. The argument `jwtParse`
stands for `jwt.Parse` with the key function over the fetched key set. -/
def CognitoMiddleware (config : CognitoMiddlewareConfig) (jwtParse : String → Parsed)
    (c : Request) : Outcome :=
  let authHeader := c.Get
  if authHeader = "" ∨ HasPrefix authHeader "Bearer " = false then
    ⟨none, .json StatusUnauthorized "Authorization header missing or invalid"⟩
  else
    let tokenString := TrimPrefix authHeader "Bearer "
    match jwtParse tokenString with
    | .rejected => ⟨some tokenString, .json StatusUnauthorized "invalid or expired token"⟩
    | .valid none => ⟨some tokenString, .json StatusUnauthorized "invalid token claims"⟩
    | .valid (some claims) => ⟨some tokenString, validateClaims config claims⟩

end Middlewares

namespace Services

/-! ## Helper lemmas -/

theorem writeUsersToFile_success {users : List User} {o : WriteOutcome} {s : Store}
    (h : (writeUsersToFile users o s).1 = none) : o = .ok := by
  cases o <;> simp [writeUsersToFile] at h ⊢

theorem jsonString_idem (s : GoString) : jsonString (jsonString s) = jsonString s := by
  unfold jsonString
  rw [List.map_map]
  apply List.map_congr_left
  intro x _
  cases x <;> rfl

theorem jsonString_of_valid {s : GoString} (h : ValidString s = true) : jsonString s = s := by
  induction s with
  | nil => rfl
  | cons x s ih =>
    cases x with
    | rune c =>
      have hs : ValidString s = true := by simpa [ValidString] using h
      have := ih hs
      simp only [jsonString, List.map_cons, List.cons.injEq, true_and] at this ⊢
      exact this
    | invalid b => simp [ValidString] at h

theorem jsonUser_idem (u : User) : jsonUser (jsonUser u) = jsonUser u := by
  simp [jsonUser, jsonString_idem]

theorem jsonUser_of_valid {u : User} (h : validUser u = true) : jsonUser u = u := by
  simp only [validUser, Bool.and_eq_true] at h
  cases u
  simp only [jsonUser, User.mk.injEq]
  exact ⟨jsonString_of_valid h.1, trivial, jsonString_of_valid h.2⟩

theorem map_jsonUser_idem (users : List User) :
    (users.map jsonUser).map jsonUser = users.map jsonUser := by
  rw [List.map_map]
  apply List.map_congr_left
  intro u _
  exact jsonUser_idem u

theorem map_jsonUser_of_valid {users : List User}
    (h : ∀ u ∈ users, validUser u = true) : users.map jsonUser = users := by
  induction users with
  | nil => rfl
  | cons u us ih =>
    simp only [List.map_cons, List.cons.injEq]
    exact ⟨jsonUser_of_valid (h u (List.mem_cons_self u us)),
      ih (fun v hv => h v (List.mem_cons_of_mem u hv))⟩

theorem lastWritten_append (loaded : List User) (t t' : List Event) :
    lastWritten loaded (t ++ t') = lastWritten (lastWritten loaded t) t' := by
  induction t generalizing loaded with
  | nil => rfl
  | cons e t ih =>
    cases e with
    | opened => simpa [lastWritten] using ih loaded
    | persist users o => cases o <;> simp [lastWritten, ih]

theorem lastWritten_rendered (loaded : List User) (t : List Event)
    (h : loaded.map jsonUser = loaded) :
    (lastWritten loaded t).map jsonUser = lastWritten loaded t := by
  induction t generalizing loaded with
  | nil => exact h
  | cons e t ih =>
    cases e with
    | opened => simpa [lastWritten] using ih loaded h
    | persist users o =>
      cases o
      · simpa [lastWritten] using ih (users.map jsonUser) (map_jsonUser_idem users)
      · simpa [lastWritten] using ih loaded h
      · simpa [lastWritten] using ih loaded h

theorem lastPersistFailed_append (failed : Bool) (t t' : List Event) :
    lastPersistFailed failed (t ++ t') = lastPersistFailed (lastPersistFailed failed t) t' := by
  induction t generalizing failed with
  | nil => rfl
  | cons e t ih =>
    cases e with
    | opened => simpa [lastPersistFailed] using ih failed
    | persist users o => cases o <;> simp [lastPersistFailed, ih]

/-- A successful `InitializeCache` in a fresh process ends in `loadedStore`. -/
theorem InitializeCache_fresh (loaded : List User) :
    InitializeCache (fresh (.holds loaded)) = (none, loadedStore loaded) := by
  simp [InitializeCache, loadedStore, GetAllUsers, fresh]

theorem consistent_loadedStore (loaded : List User) : Consistent loaded (loadedStore loaded) := by
  intro _
  simp [loadedStore, GetAllUsers, fresh, lastWritten]

theorem consistent_writeUsersToFile (loaded : List User) (s : Store) (o : WriteOutcome) :
    Consistent loaded (writeUsersToFile s.usersCache o s).2 := by
  intro h
  cases o <;>
    simp [writeUsersToFile, lastPersistFailed_append, lastWritten_append, lastPersistFailed,
      lastWritten, jsonUser_idem] at h ⊢

theorem consistent_GetAllUsers (loaded : List User) (s : Store)
    (hs : Consistent loaded s) : Consistent loaded (GetAllUsers s).2 := by
  by_cases hlen : s.usersCache.length = 0
  · intro h
    rcases hfile : s.file with _ | _ | users <;>
      simp only [GetAllUsers, if_pos hlen, hfile, lastPersistFailed_append,
        lastWritten_append, lastPersistFailed, lastWritten] at h ⊢ <;>
      have hh := hs h <;>
      simp only [hfile, File.holds.injEq] at hh
    · exact absurd hh.1 (by simp)
    · exact absurd hh.1 (by simp)
    · exact ⟨by rw [hh.1], by rw [hh.1]⟩
  · have : (GetAllUsers s).2 = s := by simp only [GetAllUsers, if_neg hlen]
    rw [this]
    exact hs

theorem GetUserByID_store (id : Int) (s : Store) : (GetUserByID id s).2 = s := by
  unfold GetUserByID
  split
  · rfl
  · split <;> rfl

theorem consistent_step (loaded : List User) (s : Store) (c : Call)
    (hs : Consistent loaded s) : Consistent loaded (step s c) := by
  cases c with
  | getAll => exact consistent_GetAllUsers loaded s hs
  | getByID id =>
    show Consistent loaded (GetUserByID id s).2
    rw [GetUserByID_store]
    exact hs
  | create user o =>
    exact consistent_writeUsersToFile loaded { s with usersCache := s.usersCache ++ [user] } o
  | update id user o =>
    show Consistent loaded (UpdateUser id user o s).2
    by_cases hr : id < 0 ∨ id ≥ (s.usersCache.length : Int)
    · simpa [UpdateUser, if_pos hr] using hs
    · simpa [UpdateUser, if_neg hr] using consistent_writeUsersToFile loaded
        { s with usersCache := s.usersCache.set id.toNat user } o
  | delete id o =>
    show Consistent loaded (DeleteUser id o s).2
    by_cases hr : id < 0 ∨ id ≥ (s.usersCache.length : Int)
    · simpa [DeleteUser, if_pos hr] using hs
    · simpa [DeleteUser, if_neg hr] using consistent_writeUsersToFile loaded
        { s with usersCache := s.usersCache.take id.toNat ++ s.usersCache.drop (id.toNat + 1) } o

theorem consistent_run (loaded : List User) (calls : List Call) (s : Store)
    (hs : Consistent loaded s) : Consistent loaded (run s calls) := by
  induction calls generalizing s with
  | nil => exact hs
  | cons c cs ih => exact ih (step s c) (consistent_step loaded s c hs)

/-! ## The record store -/

/-- C10: for an index outside the cache, `UpdateUser` and `DeleteUser` return
"user not found" and leave the store as it was: cache, file and trace, so no
persist is attempted, whatever the environment would have answered. -/
theorem rejected_index_is_atomic (s : Store) (id : Int) (r : User) (o : WriteOutcome)
    (h : id < 0 ∨ id ≥ (s.usersCache.length : Int)) :
    UpdateUser id r o s = (some .userNotFound, s) ∧
    DeleteUser id o s = (some .userNotFound, s) := by
  simp [UpdateUser, DeleteUser, if_pos h]

/-- Witness for C10: index -1 and index 1 on a one-record cache. -/
theorem rejected_index_is_atomic_witness :
    DeleteUser (-1) .encodeFails ⟨[⟨"A", 1, "x"⟩], .holds [⟨"A", 1, "x"⟩], []⟩
      = (some .userNotFound, ⟨[⟨"A", 1, "x"⟩], .holds [⟨"A", 1, "x"⟩], []⟩) ∧
    UpdateUser 1 ⟨"B", 2, "y"⟩ .ok ⟨[⟨"A", 1, "x"⟩], .holds [⟨"A", 1, "x"⟩], []⟩
      = (some .userNotFound, ⟨[⟨"A", 1, "x"⟩], .holds [⟨"A", 1, "x"⟩], []⟩) :=
  ⟨(rejected_index_is_atomic ⟨[⟨"A", 1, "x"⟩], .holds [⟨"A", 1, "x"⟩], []⟩ (-1)
      ⟨"B", 2, "y"⟩ .encodeFails (by decide)).2,
   (rejected_index_is_atomic ⟨[⟨"A", 1, "x"⟩], .holds [⟨"A", 1, "x"⟩], []⟩ 1
      ⟨"B", 2, "y"⟩ .ok (by decide)).1⟩

/-- C5, as stated, fails for a loaded store whose cache is empty: after a load
of `[A]` and a successful `DeleteUser(0)` the cache is empty, and `GetAllUsers`
opens the file again; its result follows the file, so it fails when the file
cannot be opened and returns other contents when the file holds them. The same
happens without any change from outside when the persist of that `DeleteUser`
fails: the cache is empty, the file still holds `[A]`, and `GetAllUsers`
returns `[A]`. -/
theorem GetAllUsers_rereads_when_cache_empty :
    (run (loadedStore [⟨"A", 1, "x"⟩]) [.delete 0 .ok]).usersCache = [] ∧
    (GetAllUsers (run (loadedStore [⟨"A", 1, "x"⟩]) [.delete 0 .ok])).2.trace
      = (run (loadedStore [⟨"A", 1, "x"⟩]) [.delete 0 .ok]).trace ++ [Event.opened] ∧
    (GetAllUsers { run (loadedStore [⟨"A", 1, "x"⟩]) [.delete 0 .ok] with
        file := .unopenable }).1 = .error .openFailed ∧
    (GetAllUsers { run (loadedStore [⟨"A", 1, "x"⟩]) [.delete 0 .ok] with
        file := .holds [⟨"B", 2, "y"⟩] }).1 = .ok [⟨"B", 2, "y"⟩] ∧
    (GetAllUsers { run (loadedStore [⟨"A", 1, "x"⟩]) [.delete 0 .ok] with
        file := .holds [⟨"B", 2, "y"⟩] }).2.usersCache
      ≠ (run (loadedStore [⟨"A", 1, "x"⟩]) [.delete 0 .ok]).usersCache ∧
    (run (loadedStore [⟨"A", 1, "x"⟩]) [.delete 0 .createFails]).usersCache = [] ∧
    (GetAllUsers (run (loadedStore [⟨"A", 1, "x"⟩]) [.delete 0 .createFails])).1
      = .ok [⟨"A", 1, "x"⟩] := by
  decide

/-- C5, amended: for every store whose cache is non-empty, `GetAllUsers` returns
the cache without reading the file: whatever the file is, it succeeds with the
cache and leaves the store, trace included, as it was. -/
theorem GetAllUsers_serves_nonempty_cache (s : Store) (f : File)
    (h : s.usersCache ≠ []) :
    GetAllUsers { s with file := f } = (.ok s.usersCache, { s with file := f }) := by
  have hlen : ¬ s.usersCache.length = 0 := by
    intro h0
    exact h (List.length_eq_zero.mp h0)
  simp only [GetAllUsers, if_neg hlen]

/-- Witness for C5: a one-record cache over a file that cannot be opened. -/
theorem GetAllUsers_serves_nonempty_cache_witness :
    GetAllUsers ⟨[⟨"A", 1, "x"⟩], .unopenable, []⟩
      = (.ok [⟨"A", 1, "x"⟩], ⟨[⟨"A", 1, "x"⟩], .unopenable, []⟩) :=
  GetAllUsers_serves_nonempty_cache ⟨[⟨"A", 1, "x"⟩], .holds [], []⟩ .unopenable (by decide)

/-- C2, as stated, fails for a record with a byte that is not valid UTF-8:
`CreateUser` returns success, but the file decodes to that record with U+FFFD
in place of the byte, and that is what a fresh `GetAllUsers` returns. -/
theorem CreateUser_roundtrip_loses_invalid_bytes :
    (CreateUser ⟨[.invalid 255], 1, []⟩ .ok (fresh .unopenable)).1 = none ∧
    (GetAllUsers (fresh (CreateUser ⟨[.invalid 255], 1, []⟩ .ok (fresh .unopenable)).2.file)).1
      = .ok [⟨[.rune RuneError], 1, []⟩] ∧
    (GetAllUsers (fresh (CreateUser ⟨[.invalid 255], 1, []⟩ .ok (fresh .unopenable)).2.file)).1
      ≠ .ok ((fresh .unopenable).usersCache ++ [⟨[.invalid 255], 1, []⟩]) ∧
    (CreateUser ⟨[.invalid 255], 1, []⟩ .ok (fresh .unopenable)).2.file
      ≠ .holds ((fresh .unopenable).usersCache ++ [⟨[.invalid 255], 1, []⟩]) := by
  decide

/-- C2, amended: when `CreateUser(r)` returns success, the file holds the JSON
rendering of the old cache followed by `r` (invalid UTF-8 bytes of `Name` and
`City` replaced by U+FFFD), and `GetAllUsers` in a fresh process over that file
returns a sequence one longer than the old cache, equal to the rendering of the
old cache on its positions and with the rendering of `r` at the appended
position; when the strings of the old cache and of `r` are valid UTF-8 it
returns exactly the old cache followed by `r`. -/
theorem CreateUser_roundtrip (s : Store) (r : User) (o : WriteOutcome)
    (hok : (CreateUser r o s).1 = none) :
    (CreateUser r o s).2.file = .holds ((s.usersCache ++ [r]).map jsonUser) ∧
    (∃ users : List User,
      (GetAllUsers (fresh (CreateUser r o s).2.file)).1 = .ok users ∧
      users.length = s.usersCache.length + 1 ∧
      (∀ j : Nat, j < s.usersCache.length → users[j]? = (s.usersCache[j]?).map jsonUser) ∧
      users[s.usersCache.length]? = some (jsonUser r)) ∧
    ((∀ u ∈ s.usersCache, validUser u = true) → validUser r = true →
      (CreateUser r o s).2.file = .holds (s.usersCache ++ [r]) ∧
      (GetAllUsers (fresh (CreateUser r o s).2.file)).1 = .ok (s.usersCache ++ [r])) := by
  have ho : o = .ok := writeUsersToFile_success hok
  subst ho
  have hf : (CreateUser r .ok s).2.file = .holds ((s.usersCache ++ [r]).map jsonUser) := by
    simp [CreateUser, writeUsersToFile]
  have hg : ∀ users : List User, users ≠ [] →
      (GetAllUsers (fresh (.holds users))).1 = .ok users := by
    intro users _
    simp [GetAllUsers, fresh]
  refine ⟨hf, ⟨(s.usersCache ++ [r]).map jsonUser, ?_, ?_, ?_, ?_⟩, ?_⟩
  · rw [hf]
    exact hg _ (by simp)
  · simp
  · intro j hj
    rw [List.map_append, List.getElem?_append_left (by simpa using hj)]
    simp
  · rw [List.map_append, List.getElem?_append_right (by simp)]
    simp
  · intro hc hr
    have hv : (s.usersCache ++ [r]).map jsonUser = s.usersCache ++ [r] := by
      apply map_jsonUser_of_valid
      intro u hu
      rcases List.mem_append.mp hu with hu | hu
      · exact hc u hu
      · rw [List.mem_singleton.mp hu]
        exact hr
    rw [hf, hv]
    exact ⟨rfl, hg _ (by simp)⟩

/-- Witness for C2: a valid record appended to a one-record cache. -/
theorem CreateUser_roundtrip_witness :
    (CreateUser ⟨"B", 2, "y"⟩ .ok ⟨[⟨"A", 1, "x"⟩], .undecodable, []⟩).2.file
      = .holds [⟨"A", 1, "x"⟩, ⟨"B", 2, "y"⟩] ∧
    (GetAllUsers (fresh
      (CreateUser ⟨"B", 2, "y"⟩ .ok ⟨[⟨"A", 1, "x"⟩], .undecodable, []⟩).2.file)).1
      = .ok [⟨"A", 1, "x"⟩, ⟨"B", 2, "y"⟩] :=
  (CreateUser_roundtrip ⟨[⟨"A", 1, "x"⟩], .undecodable, []⟩ ⟨"B", 2, "y"⟩ .ok (by decide)).2.2
    (by decide) (by decide)

/-- C3, as stated, fails in two ways. After a load of `[A]`, a `CreateUser(B)`
whose `os.Create` fails returns with the cache `[A, B]`, while the contents
last written successfully are still the loaded `[A]`. And after a load of an
empty file, a successful `CreateUser` of a record with a byte that is not
valid UTF-8 leaves that record in the cache, while the file holds it with
U+FFFD in place of the byte. -/
theorem cache_diverges_from_last_write :
    (run (loadedStore [⟨"A", 1, "x"⟩]) [.create ⟨"B", 2, "y"⟩ .createFails]).usersCache
        = [⟨"A", 1, "x"⟩, ⟨"B", 2, "y"⟩] ∧
    lastWritten [⟨"A", 1, "x"⟩]
        (run (loadedStore [⟨"A", 1, "x"⟩]) [.create ⟨"B", 2, "y"⟩ .createFails]).trace
        = [⟨"A", 1, "x"⟩] ∧
    (run (loadedStore [⟨"A", 1, "x"⟩]) [.create ⟨"B", 2, "y"⟩ .createFails]).usersCache
        ≠ lastWritten [⟨"A", 1, "x"⟩]
          (run (loadedStore [⟨"A", 1, "x"⟩]) [.create ⟨"B", 2, "y"⟩ .createFails]).trace ∧
    (run (loadedStore []) [.create ⟨[.invalid 255], 1, []⟩ .ok]).usersCache
        = [⟨[.invalid 255], 1, []⟩] ∧
    (run (loadedStore []) [.create ⟨[.invalid 255], 1, []⟩ .ok]).file
        = .holds [⟨[.rune RuneError], 1, []⟩] ∧
    (run (loadedStore []) [.create ⟨[.invalid 255], 1, []⟩ .ok]).usersCache
        ≠ lastWritten []
          (run (loadedStore []) [.create ⟨[.invalid 255], 1, []⟩ .ok]).trace := by
  decide

/-- C3, amended: in every state reached from a successful load by any sequence
of calls, with each persist succeeding or failing, provided the most recent
persist did not fail: the file holds the contents most recently written
successfully (the loaded contents when nothing has been written), and the
cache agrees with those contents up to the JSON rendering, which replaces
invalid UTF-8 bytes of `Name` and `City` by U+FFFD; when the strings of the
cache and of the loaded contents are valid UTF-8, the cache equals those
contents. -/
theorem cache_matches_last_write (loaded : List User) (calls : List Call)
    (h : lastPersistFailed false (run (loadedStore loaded) calls).trace = false) :
    (run (loadedStore loaded) calls).file
      = .holds (lastWritten loaded (run (loadedStore loaded) calls).trace) ∧
    (run (loadedStore loaded) calls).usersCache.map jsonUser
      = (lastWritten loaded (run (loadedStore loaded) calls).trace).map jsonUser ∧
    ((∀ u ∈ (run (loadedStore loaded) calls).usersCache, validUser u = true) →
      (∀ u ∈ loaded, validUser u = true) →
      (run (loadedStore loaded) calls).usersCache
        = lastWritten loaded (run (loadedStore loaded) calls).trace) := by
  have hc := consistent_run loaded calls (loadedStore loaded) (consistent_loadedStore loaded) h
  refine ⟨hc.1, hc.2, ?_⟩
  intro hv hl
  have h1 := hc.2
  rw [map_jsonUser_of_valid hv,
    lastWritten_rendered loaded _ (map_jsonUser_of_valid hl)] at h1
  exact h1

/-- Witness for C3: a failed create, then a successful one, then a read. -/
theorem cache_matches_last_write_witness :
    (run (loadedStore [⟨"A", 1, "x"⟩])
      [.create ⟨"B", 2, "y"⟩ .createFails, .create ⟨"C", 3, "z"⟩ .ok, .getByID 0]).usersCache
      = [⟨"A", 1, "x"⟩, ⟨"B", 2, "y"⟩, ⟨"C", 3, "z"⟩] :=
  ((cache_matches_last_write [⟨"A", 1, "x"⟩]
    [.create ⟨"B", 2, "y"⟩ .createFails, .create ⟨"C", 3, "z"⟩ .ok, .getByID 0]
    (by decide)).2.2 (by decide) (by decide)).trans (by decide)

theorem unloaded_step (t : Store) (c : Call) (hc : t.usersCache = [])
    (hf : t.file = .unopenable ∨ t.file = .undecodable) (hn : c.isCreate = false) :
    (step t c).usersCache = [] ∧ (step t c).file = t.file := by
  have hout : ∀ id : Int, id < 0 ∨ id ≥ (t.usersCache.length : Int) := by
    intro id
    rw [hc]
    simp only [List.length_nil, Nat.cast_zero]
    omega
  cases c with
  | getAll => rcases hf with hf | hf <;> simp [step, GetAllUsers, hc, hf]
  | getByID id => simp [step, GetUserByID_store, hc]
  | create user o => simp [Call.isCreate] at hn
  | update id user o =>
    have : step t (.update id user o) = t := by
      simp only [step, UpdateUser, if_pos (hout id)]
    rw [this]
    exact ⟨hc, rfl⟩
  | delete id o =>
    have : step t (.delete id o) = t := by
      simp only [step, DeleteUser, if_pos (hout id)]
    rw [this]
    exact ⟨hc, rfl⟩

theorem unloaded_run (calls : List Call) (t : Store) (hc : t.usersCache = [])
    (hf : t.file = .unopenable ∨ t.file = .undecodable)
    (hn : ∀ c ∈ calls, c.isCreate = false) :
    (run t calls).usersCache = [] ∧ (run t calls).file = t.file := by
  induction calls generalizing t with
  | nil => exact ⟨hc, rfl⟩
  | cons c cs ih =>
    have h1 := unloaded_step t c hc hf (hn c (List.mem_cons_self c cs))
    have h2 := ih (step t c) h1.1 (by rw [h1.2]; exact hf)
      (fun d hd => hn d (List.mem_cons_of_mem c hd))
    exact ⟨h2.1, h2.2.trans h1.2⟩

/-- C4, as stated, fails: after a `GetAllUsers` that failed on an undecodable
file the cache is still empty, yet `CreateUser` with a working write returns
success and replaces the file by the one new record. -/
theorem CreateUser_succeeds_on_unloaded_store :
    (GetAllUsers (fresh .undecodable)).1 = .error .decodeFailed ∧
    (GetAllUsers (fresh .undecodable)).2.usersCache = [] ∧
    (CreateUser ⟨"A", 1, "x"⟩ .ok (GetAllUsers (fresh .undecodable)).2).1 = none ∧
    (CreateUser ⟨"A", 1, "x"⟩ .ok (GetAllUsers (fresh .undecodable)).2).2.file
      = .holds [⟨"A", 1, "x"⟩] ∧
    (CreateUser ⟨"A", 1, "x"⟩ .ok (GetAllUsers (fresh .undecodable)).2).2.file
      ≠ (GetAllUsers (fresh .undecodable)).2.file := by
  decide

/-- C4, amended: start from a store that has never been loaded (the cache is
empty and the file cannot be opened or decoded). After any sequence of
`GetAllUsers`, `GetUserByID`, `UpdateUser` and `DeleteUser` calls the cache is
still empty and the file is as it was; there `GetAllUsers` fails, and
`GetUserByID`, `UpdateUser` and `DeleteUser` fail with "user not found" for
every argument and leave the store untouched. `CreateUser` is not gated on a
load: it puts the record into the cache whether or not its write succeeds,
after which `GetUserByID(0)` returns that record, and with a working write it
returns success and leaves the file holding the JSON rendering of exactly that
record. -/
theorem unloaded_store_operations (s : Store) (calls : List Call)
    (hc : s.usersCache = []) (hf : s.file = .unopenable ∨ s.file = .undecodable)
    (hn : ∀ c ∈ calls, c.isCreate = false) :
    (run s calls).usersCache = [] ∧
    (run s calls).file = s.file ∧
    (∃ e, (GetAllUsers (run s calls)).1 = .error e) ∧
    (∀ id : Int, GetUserByID id (run s calls) = (.error .userNotFound, run s calls)) ∧
    (∀ (id : Int) (u : User) (o : WriteOutcome),
      UpdateUser id u o (run s calls) = (some .userNotFound, run s calls)) ∧
    (∀ (id : Int) (o : WriteOutcome),
      DeleteUser id o (run s calls) = (some .userNotFound, run s calls)) ∧
    (∀ (u : User) (o : WriteOutcome),
      (CreateUser u o (run s calls)).2.usersCache = [u] ∧
      (GetUserByID 0 (CreateUser u o (run s calls)).2).1 = .ok u) ∧
    (∀ u : User,
      (CreateUser u .ok (run s calls)).1 = none ∧
      (CreateUser u .ok (run s calls)).2.file = .holds [jsonUser u]) := by
  obtain ⟨hc', hf'⟩ := unloaded_run calls s hc hf hn
  have hbad : (run s calls).file = .unopenable ∨ (run s calls).file = .undecodable := by
    rw [hf']
    exact hf
  have hout : ∀ id : Int, id < 0 ∨ id ≥ ((run s calls).usersCache.length : Int) := by
    intro id
    rw [hc']
    simp only [List.length_nil, Nat.cast_zero]
    omega
  refine ⟨hc', hf', ?_, ?_, ?_, ?_, ?_, ?_⟩
  · rcases hbad with hb | hb <;> simp [GetAllUsers, hc', hb]
  · intro id
    simp only [GetUserByID, if_pos (hout id)]
  · intro id u o
    simp only [UpdateUser, if_pos (hout id)]
  · intro id o
    simp only [DeleteUser, if_pos (hout id)]
  · intro u o
    cases o <;> simp [CreateUser, writeUsersToFile, GetUserByID, hc']
  · intro u
    simp [CreateUser, writeUsersToFile, hc']

/-- Witness for C4: a fresh process over a file that cannot be opened, after a
failed load, a lookup and a delete. -/
theorem unloaded_store_operations_witness :
    DeleteUser 0 .ok (run (fresh .unopenable) [.getAll, .getByID 0, .delete 0 .ok])
      = (some .userNotFound, run (fresh .unopenable) [.getAll, .getByID 0, .delete 0 .ok]) :=
  (unloaded_store_operations (fresh .unopenable) [.getAll, .getByID 0, .delete 0 .ok]
    (by decide) (by decide) (by decide)).2.2.2.2.2.1 0 .ok

end Services

namespace Middlewares

/-! ## Helper lemmas -/

theorem HasPrefix_split {s pre : String} (h : HasPrefix s pre = true) :
    s = pre ++ TrimPrefix s pre := by
  have hp : pre.data <+: s.data := List.isPrefixOf_iff_prefix.mp h
  obtain ⟨t, ht⟩ := hp
  apply String.ext
  simp only [TrimPrefix, if_pos h, String.data_append]
  rw [← ht]
  simp

theorem validateClaims_next {config : CognitoMiddlewareConfig} {claims claims' : MapClaims}
    (h : validateClaims config claims = .next claims') :
    claims' = claims ∧ validateAudience config claims = none ∧
      stringClaim claims "iss" = some (expectedIssuer config) := by
  unfold validateClaims at h
  cases ha : validateAudience config claims with
  | some r =>
    rw [ha] at h
    simp only [validateAudience] at ha
    split at ha
    · split at ha
      · split at ha
        · cases ha; cases h
        · cases ha
      · cases ha; cases h
    · cases ha
  | none =>
    rw [ha] at h
    simp only [validateIssuer] at h
    cases hi : stringClaim claims "iss" with
    | none => rw [hi] at h; cases h
    | some iss =>
      rw [hi] at h
      by_cases he : iss = expectedIssuer config
      · simp only [he, ne_eq, not_true_eq_false, if_false] at h
        cases h
        exact ⟨rfl, rfl, by rw [he]⟩
      · simp only [ne_eq, he, not_false_eq_true, if_true] at h
        cases h

theorem stringClaim_eq_some {claims : MapClaims} {key s : String} :
    stringClaim claims key = some s ↔ claims.lookup key = some (.str s) := by
  unfold stringClaim
  split
  · rename_i s' hs
    rw [hs]
    simp
  · rename_i hne
    constructor
    · intro h; cases h
    · intro h; exact absurd h (hne s)

theorem validateAudience_cases (config : CognitoMiddlewareConfig) (claims : MapClaims) :
    validateAudience config claims = none ∨
      ∃ e, validateAudience config claims = some (.json StatusUnauthorized e) := by
  unfold validateAudience
  split
  · split
    · split
      · exact Or.inr ⟨_, rfl⟩
      · exact Or.inl rfl
    · exact Or.inr ⟨_, rfl⟩
  · exact Or.inl rfl

theorem validateIssuer_cases (config : CognitoMiddlewareConfig) (claims : MapClaims) :
    validateIssuer config claims = none ∨
      ∃ e, validateIssuer config claims = some (.json StatusUnauthorized e) := by
  unfold validateIssuer
  split
  · split
    · exact Or.inr ⟨_, rfl⟩
    · exact Or.inl rfl
  · exact Or.inr ⟨_, rfl⟩

theorem validateClaims_unauthorized_or_next (config : CognitoMiddlewareConfig)
    (claims : MapClaims) :
    (∃ e, validateClaims config claims = .json StatusUnauthorized e) ∨
      validateClaims config claims = .next claims := by
  unfold validateClaims
  rcases validateAudience_cases config claims with ha | ⟨e, ha⟩
  · rcases validateIssuer_cases config claims with hi | ⟨e, hi⟩
    · exact Or.inr (by rw [ha, hi])
    · exact Or.inl ⟨e, by rw [ha, hi]⟩
  · exact Or.inl ⟨e, by rw [ha]⟩

theorem CognitoMiddleware_reply (config : CognitoMiddlewareConfig)
    (jwtParse : String → Parsed) (c : Request) :
    (∃ e, (CognitoMiddleware config jwtParse c).reply = .json StatusUnauthorized e) ∨
    (∃ claims, (CognitoMiddleware config jwtParse c).reply = .next claims ∧
      jwtParse (TrimPrefix c.Get "Bearer ") = .valid (some claims) ∧
      validateClaims config claims = .next claims) := by
  unfold CognitoMiddleware
  by_cases hh : c.Get = "" ∨ HasPrefix c.Get "Bearer " = false
  · simp only [if_pos hh]
    exact Or.inl ⟨_, rfl⟩
  · simp only [if_neg hh]
    cases hp : jwtParse (TrimPrefix c.Get "Bearer ") with
    | rejected => exact Or.inl ⟨_, rfl⟩
    | valid oc =>
      cases oc with
      | none => exact Or.inl ⟨_, rfl⟩
      | some claims =>
        rcases validateClaims_unauthorized_or_next config claims with ⟨e, he⟩ | hn
        · exact Or.inl ⟨e, he⟩
        · exact Or.inr ⟨claims, hn, rfl, hn⟩

/-- The audience block lets a claim set through exactly when both identifiers
are empty, or `aud` is a string equal to `AppClientID` or to `ResourceServerID`
(whichever they are, the empty one included). -/
theorem validateAudience_passes_iff (config : CognitoMiddlewareConfig) (claims : MapClaims) :
    validateAudience config claims = none ↔
      (config.AppClientID = "" ∧ config.ResourceServerID = "") ∨
      ∃ aud, claims.lookup "aud" = some (.str aud) ∧
        (aud = config.AppClientID ∨ aud = config.ResourceServerID) := by
  unfold validateAudience
  by_cases hc : config.AppClientID ≠ "" ∨ config.ResourceServerID ≠ ""
  · have hne : ¬ (config.AppClientID = "" ∧ config.ResourceServerID = "") := by
      rintro ⟨h1, h2⟩
      rcases hc with hc | hc
      · exact hc h1
      · exact hc h2
    simp only [if_pos hc]
    cases hs : stringClaim claims "aud" with
    | none =>
      simp only [false_iff, reduceCtorEq]
      rintro (h | ⟨aud, hl, _⟩)
      · exact hne h
      · rw [stringClaim_eq_some.mpr hl] at hs
        cases hs
    | some aud =>
      have hl := stringClaim_eq_some.mp hs
      by_cases hm : aud ≠ config.AppClientID ∧ aud ≠ config.ResourceServerID
      · simp only [if_pos hm, false_iff, reduceCtorEq]
        rintro (h | ⟨aud', hl', h'⟩)
        · exact hne h
        · rw [hl] at hl'
          cases hl'
          rcases h' with h' | h'
          · exact hm.1 h'
          · exact hm.2 h'
      · simp only [if_neg hm, true_iff]
        right
        refine ⟨aud, hl, ?_⟩
        by_cases h1 : aud = config.AppClientID
        · exact Or.inl h1
        · right
          by_contra h2
          exact hm ⟨h1, h2⟩
  · simp only [if_neg hc, true_iff]
    left
    constructor
    · by_contra h
      exact hc (Or.inl h)
    · by_contra h
      exact hc (Or.inr h)

/-! ## The auth gate -/

/-- C6, at the failing input: with `AppClientID` configured and
`ResourceServerID` left empty, a verified token whose `aud` claim is the empty
string passes the audience block, because `aud` equals the empty, unconfigured
`ResourceServerID`; with a matching issuer the wrapped handler is invoked. -/
theorem empty_aud_passes_audience_check :
    validateAudience ⟨"eu-west-1", "pool", "client", ""⟩ [("aud", .str "")] = none ∧
    (CognitoMiddleware ⟨"eu-west-1", "pool", "client", ""⟩
      (fun _ => .valid (some
        [("aud", .str ""), ("iss", .str "https://cognito-idp.eu-west-1.amazonaws.com/pool")]))
      ⟨some "Bearer t"⟩).reply
      = .next [("aud", .str ""), ("iss", .str "https://cognito-idp.eu-west-1.amazonaws.com/pool")] := by
  decide

/-- C7: the handler ends either with a 401 reply or by attaching the parsed
claims and calling the next handler, and the latter only when the `iss` claim
is the string "https://cognito-idp." + Region + ".amazonaws.com/" + UserPoolID;
whenever the parsed claims carry another `iss`, none, or one that is not a
string, the reply is a 401. -/
theorem issuer_gate (config : CognitoMiddlewareConfig) (jwtParse : String → Parsed)
    (c : Request) :
    ((∃ e, (CognitoMiddleware config jwtParse c).reply = .json 401 e) ∨
     (∃ claims, (CognitoMiddleware config jwtParse c).reply = .next claims ∧
        jwtParse (TrimPrefix c.Get "Bearer ") = .valid (some claims) ∧
        claims.lookup "iss" = some (.str
          ("https://cognito-idp." ++ config.Region ++ ".amazonaws.com/" ++ config.UserPoolID)))) ∧
    (∀ claims, jwtParse (TrimPrefix c.Get "Bearer ") = .valid (some claims) →
        claims.lookup "iss" ≠ some (.str
          ("https://cognito-idp." ++ config.Region ++ ".amazonaws.com/" ++ config.UserPoolID)) →
        ∃ e, (CognitoMiddleware config jwtParse c).reply = .json 401 e) := by
  have key : ∀ claims, validateClaims config claims = .next claims →
      claims.lookup "iss" = some (.str
        ("https://cognito-idp." ++ config.Region ++ ".amazonaws.com/" ++ config.UserPoolID)) := by
    intro claims hn
    exact stringClaim_eq_some.mp (validateClaims_next hn).2.2
  constructor
  · rcases CognitoMiddleware_reply config jwtParse c with h | ⟨claims, hr, hp, hn⟩
    · exact Or.inl h
    · exact Or.inr ⟨claims, hr, hp, key claims hn⟩
  · intro claims hp hiss
    rcases CognitoMiddleware_reply config jwtParse c with h | ⟨claims', _, hp', hn⟩
    · exact h
    · rw [hp] at hp'
      cases hp'
      exact absurd (key claims hn) hiss

/-- Witness for C7: a verified token whose issuer names another pool. -/
theorem issuer_gate_witness :
    ∃ e, (CognitoMiddleware ⟨"eu-west-1", "pool", "", ""⟩
      (fun _ => .valid (some [("iss", .str "https://cognito-idp.eu-west-1.amazonaws.com/other")]))
      ⟨some "Bearer t"⟩).reply = .json 401 e :=
  (issuer_gate ⟨"eu-west-1", "pool", "", ""⟩
    (fun _ => .valid (some [("iss", .str "https://cognito-idp.eu-west-1.amazonaws.com/other")]))
    ⟨some "Bearer t"⟩).2
    [("iss", .str "https://cognito-idp.eu-west-1.amazonaws.com/other")] rfl (by decide)

/-- C8: when the Authorization header is absent, empty or does not start with
"Bearer ", the handler answers 401 with an error body whatever `jwt.Parse`
would answer, `jwt.Parse` is not called and the next handler is not invoked (so
for "Basic xyz"); when the header starts with "Bearer ", it is "Bearer "
followed by a string `t`, `jwt.Parse` is called on `t`, and the reply is the
one that the answer of `jwt.Parse` on `t` leads to. -/
theorem bearer_gate (config : CognitoMiddlewareConfig) (jwtParse : String → Parsed)
    (c : Request) :
    (c.Authorization = none ∨ c.Authorization = some "" ∨
        HasPrefix c.Get "Bearer " = false →
      CognitoMiddleware config jwtParse c
        = ⟨none, .json 401 "Authorization header missing or invalid"⟩) ∧
    (HasPrefix c.Get "Bearer " = true →
      ∃ t, c.Get = "Bearer " ++ t ∧
        (CognitoMiddleware config jwtParse c).parsed = some t ∧
        (jwtParse t = .rejected →
          (CognitoMiddleware config jwtParse c).reply
            = .json 401 "invalid or expired token") ∧
        (jwtParse t = .valid none →
          (CognitoMiddleware config jwtParse c).reply
            = .json 401 "invalid token claims") ∧
        (∀ claims, jwtParse t = .valid (some claims) →
          (CognitoMiddleware config jwtParse c).reply = validateClaims config claims)) ∧
    CognitoMiddleware config jwtParse ⟨some "Basic xyz"⟩
      = ⟨none, .json 401 "Authorization header missing or invalid"⟩ := by
  refine ⟨?_, ?_, ?_⟩
  · intro h
    have hh : c.Get = "" ∨ HasPrefix c.Get "Bearer " = false := by
      rcases h with h | h | h
      · left; simp [Request.Get, h]
      · left; simp [Request.Get, h]
      · right; exact h
    simp only [CognitoMiddleware, if_pos hh]
    rfl
  · intro h
    have hne : c.Get ≠ "" := by
      intro h0
      rw [h0] at h
      exact absurd h (by decide)
    have hh : ¬ (c.Get = "" ∨ HasPrefix c.Get "Bearer " = false) := by
      simp [hne, h]
    refine ⟨TrimPrefix c.Get "Bearer ", HasPrefix_split h, ?_, ?_, ?_, ?_⟩
    · simp only [CognitoMiddleware, if_neg hh]
      cases jwtParse (TrimPrefix c.Get "Bearer ") with
      | rejected => rfl
      | valid oc => cases oc <;> rfl
    · intro hp
      simp only [CognitoMiddleware, if_neg hh, hp]
      rfl
    · intro hp
      simp only [CognitoMiddleware, if_neg hh, hp]
      rfl
    · intro claims hp
      simp only [CognitoMiddleware, if_neg hh, hp]
  · have hh : (⟨some "Basic xyz"⟩ : Request).Get = "" ∨
        HasPrefix (⟨some "Basic xyz"⟩ : Request).Get "Bearer " = false := by decide
    simp only [CognitoMiddleware, if_pos hh]
    rfl

/-- Witness for C8: a header with another scheme, and a header with the prefix
twice in front of a parser that rejects "Bearer x" and nothing else. -/
theorem bearer_gate_witness :
    CognitoMiddleware ⟨"eu-west-1", "pool", "client", ""⟩ (fun _ => .rejected) ⟨some "Basic xyz"⟩
      = ⟨none, .json 401 "Authorization header missing or invalid"⟩ ∧
    ∃ t, "Bearer Bearer x" = "Bearer " ++ t ∧
      (CognitoMiddleware ⟨"eu-west-1", "pool", "client", ""⟩
        (fun x => if x = "Bearer x" then .rejected else .valid none)
        ⟨some "Bearer Bearer x"⟩).parsed = some t ∧
      ((if t = "Bearer x" then Parsed.rejected else Parsed.valid none) = .rejected →
        (CognitoMiddleware ⟨"eu-west-1", "pool", "client", ""⟩
          (fun x => if x = "Bearer x" then .rejected else .valid none)
          ⟨some "Bearer Bearer x"⟩).reply = .json 401 "invalid or expired token") :=
  ⟨(bearer_gate ⟨"eu-west-1", "pool", "client", ""⟩ (fun _ => .rejected)
      ⟨some "Basic xyz"⟩).1 (by decide),
   match (bearer_gate ⟨"eu-west-1", "pool", "client", ""⟩
      (fun x => if x = "Bearer x" then .rejected else .valid none)
      ⟨some "Bearer Bearer x"⟩).2.1 (by decide) with
   | ⟨t, h1, h2, h3, _⟩ => ⟨t, h1, h2, h3⟩⟩

end Middlewares
